import Mathlib

/-!
# Verification of `scripts/yuv2rgb.py`

A shallow embedding of the `yuv2rgb.py` conversion script and proofs of its
specified properties.  The script parses a three-line metadata file, validates
the output extension, builds an `ffmpeg` argument list, and calls the external
tool once.

Modelling choices:
* A Python string is a Lean `String`; `str.strip()` and `str.split(' ')` are
  embedded at the `List Char` level (`stripChars`, `splitSp`) with the exact
  Python semantics: `strip` removes leading and trailing whitespace,
  `split(' ')` splits on every single occurrence of the space character and
  keeps empty fields.
* The filesystem is abstracted as the metadata file's content: `none` for a
  missing/unreadable file, `some lines` for the list of its lines (what
  `f.readlines()` yields, newline stripping being subsumed by `strip`).
* Exceptions become explicit error values (`MetaError`, `ProgError`); an
  uncaught exception is an `Except.error` result of `main`.
* The external tool is a parameter `toolExit : List String → Int` giving the
  exit status `subprocess.call` would return for a command.
-/

namespace Yuv2Rgb

/-- Python `str.strip()` on the character list: drop leading and trailing
whitespace characters. -/
def stripChars (l : List Char) : List Char :=
  (((l.dropWhile Char.isWhitespace).reverse).dropWhile Char.isWhitespace).reverse

/-- Python `str.strip()`. -/
def pyStrip (s : String) : String :=
  String.mk (stripChars s.data)

/-- Python `str.split(' ')` on the character list: split on each single space
character, keeping empty fields ( `"a  b"` ↦ `["a", "", "b"]`, `""` ↦ `[""]`). -/
def splitSp : List Char → List (List Char)
  | [] => [[]]
  | c :: rest =>
    if c = ' ' then [] :: splitSp rest
    else
      match splitSp rest with
      | [] => [[c]]
      | t :: ts => (c :: t) :: ts

/-- Python `str.split(' ')`. -/
def pySplit (s : String) : List String :=
  (splitSp s.data).map String.mk

/-- Python `str.endswith(suf)` on character lists: `s` ends with `suf` iff the
reversal of `s` begins with the reversal of `suf`. -/
def charsEndWith (s suf : List Char) : Bool :=
  s.reverse.take suf.length == suf.reverse

/-- Python `str.endswith(suf)`. -/
def pyEndsWith (s suf : String) : Bool :=
  charsEndWith s.data suf.data

/-- Python `str.lower()` (ASCII case mapping, which is all the script's
pixel-format tokens use). -/
def pyLower (s : String) : String :=
  String.mk (s.data.map Char.toLower)

/-- Embedding of `parse_meta` (yuv2rgb.py lines 29–35) on the lines of the already-opened
file: strip every line, index lines 0, 1, 2, split each on the space character
and take the second token.  `none` models the `IndexError` raised when a line
or a token is missing. -/
def parse_meta (rawLines : List String) : Option (String × String × String) :=
  let lines := rawLines.map pyStrip
  match lines.get? 0, lines.get? 1, lines.get? 2 with
  | some l0, some l1, some l2 =>
    match (pySplit l0).get? 1, (pySplit l1).get? 1, (pySplit l2).get? 1 with
    | some w, some h, some p => some (w, h, p)
    | _, _, _ => none
  | _, _, _ => none

/-- The ways `parse_meta` can raise: `open` fails (`FileNotFoundError` /
`PermissionError`), or an index is out of range (`IndexError`). -/
inductive MetaError where
  | fileAccess : MetaError
  | formatError : MetaError
  deriving DecidableEq, Repr

/-- The function `parse_meta` applied to a path, with the filesystem abstracted as the
content found at that path: `none` when `open` raises. -/
def parse_meta_file (file : Option (List String)) :
    Except MetaError (String × String × String) :=
  match file with
  | none => Except.error MetaError.fileAccess
  | some ls =>
    match parse_meta ls with
    | none => Except.error MetaError.formatError
    | some t => Except.ok t

/-- The parsed command line of the script: the `-y` (long form `--overwrite`)
store-true flag and the three positional arguments (yuv2rgb.py lines 39–45). -/
structure Args where
  overwrite : Bool
  input : String
  meta : String
  output : String
  deriving DecidableEq, Repr

/-- The uncaught exceptions the script can terminate with. -/
inductive ProgError where
  | validation : ProgError
  | fileAccess : ProgError
  | formatError : ProgError
  deriving DecidableEq, Repr

/-- The `__main__` block up to the built command (yuv2rgb.py lines 47–59):
check the output extension, parse the metadata file, lower-case the pixel
format, pick the overwrite flag and assemble `cmd`.  `metaFile` is the content
of the file at `args.meta` (`none` when it cannot be opened). -/
def main (args : Args) (metaFile : Option (List String)) :
    Except ProgError (List String) :=
  if ¬ pyEndsWith args.output ".jpg" ∧ ¬ pyEndsWith args.output ".png" then
    Except.error ProgError.validation
  else
    match parse_meta_file metaFile with
    | Except.error MetaError.fileAccess => Except.error ProgError.fileAccess
    | Except.error MetaError.formatError => Except.error ProgError.formatError
    | Except.ok (width, height, pf) =>
      let pixel_format := pyLower pf
      let overwrite_flag := if args.overwrite then "-y" else "-n"
      Except.ok
        ["ffmpeg", overwrite_flag, "-f", "image2", "-vcodec", "rawvideo",
         "-pix_fmt", pixel_format, "-s", width ++ "x" ++ height, "-i",
         args.input, args.output]

/-- One full run of the script including the `subprocess.call(cmd)` on line 61:
returns the list of external invocations made and the terminating error, if
any.  The exit status `toolExit cmd` returned by `subprocess.call` is bound
and discarded, exactly as in the source. -/
def runProgram (args : Args) (metaFile : Option (List String))
    (toolExit : List String → Int) : List (List String) × Option ProgError :=
  match main args metaFile with
  | Except.error e => ([], some e)
  | Except.ok cmd =>
    let _status : Int := toolExit cmd
    ([cmd], none)

/-- The observable steps of the script, for sequencing claims. -/
inductive Step where
  | parseArgs : Step
  | validateExt : Step
  | parseMeta : Step
  | buildCmd : Step
  | invokeTool : Step
  | exitStep : Step
  deriving DecidableEq, Repr

/-- The sequence of steps a run of the script performs, read off the
`__main__` block: argument parsing (lines 39–45), then the extension check
(lines 47–48), then — only if that check passed — metadata parsing (line 50),
then — only if that succeeded — command construction (lines 51–59), the
external call (line 61) and process exit. -/
def trace (args : Args) (metaFile : Option (List String)) : List Step :=
  Step.parseArgs :: Step.validateExt ::
    (if ¬ pyEndsWith args.output ".jpg" ∧ ¬ pyEndsWith args.output ".png" then []
     else
       Step.parseMeta ::
         (match parse_meta_file metaFile with
          | Except.error _ => []
          | Except.ok _ => [Step.buildCmd, Step.invokeTool, Step.exitStep]))

/-- The full step sequence of a successful run. -/
def fullTrace : List Step :=
  [Step.parseArgs, Step.validateExt, Step.parseMeta, Step.buildCmd,
   Step.invokeTool, Step.exitStep]

/-- The external tool is invoked exactly when `main` reaches the built
command. -/
theorem invokeTool_mem_trace_iff (args : Args) (metaFile : Option (List String)) :
    Step.invokeTool ∈ trace args metaFile ↔
      ∃ cmd, main args metaFile = Except.ok cmd := by
  unfold trace main
  by_cases hext : ¬ pyEndsWith args.output ".jpg" ∧ ¬ pyEndsWith args.output ".png"
  · simp [hext]
  · simp only [hext, if_false]
    cases hpm : parse_meta_file metaFile with
    | error e => cases e <;> simp
    | ok t => obtain ⟨w, h, p⟩ := t; simp

/-! ## Lemmas about the string primitives -/

theorem data_append (s t : String) : (s ++ t).data = s.data ++ t.data := rfl

theorem dropWhile_ws_append (a b : List Char)
    (ha : ∀ c ∈ a, c.isWhitespace) :
    (a ++ b).dropWhile Char.isWhitespace = b.dropWhile Char.isWhitespace := by
  induction a with
  | nil => rfl
  | cons c cs ih =>
    rw [List.cons_append, List.dropWhile_cons, if_pos (ha c (by simp))]
    exact ih fun x hx => ha x (by simp [hx])

theorem dropWhile_ws_cons_of_not (c : Char) (l : List Char)
    (hc : ¬ c.isWhitespace) :
    (c :: l).dropWhile Char.isWhitespace = c :: l := by
  rw [List.dropWhile_cons, if_neg (by simpa using hc)]

/-- Stripping a string that is whitespace, then a block starting and ending in
non-whitespace characters, then whitespace, yields exactly the middle block. -/
theorem stripChars_sandwich (a b : List Char) (c d : Char) (mid r : List Char)
    (ha : ∀ x ∈ a, x.isWhitespace) (hb : ∀ x ∈ b, x.isWhitespace)
    (hc : ¬ c.isWhitespace) (hd : ¬ d.isWhitespace)
    (hrev : (c :: mid).reverse = d :: r) :
    stripChars (a ++ (c :: mid) ++ b) = c :: mid := by
  have hA : (a ++ (c :: mid) ++ b).dropWhile Char.isWhitespace = c :: (mid ++ b) := by
    rw [List.append_assoc, dropWhile_ws_append _ _ ha, List.cons_append,
      dropWhile_ws_cons_of_not _ _ hc]
  have hB : (c :: (mid ++ b)).reverse = b.reverse ++ (d :: r) := by
    rw [← List.cons_append, List.reverse_append, hrev]
  unfold stripChars
  rw [hA, hB, dropWhile_ws_append _ _ (fun x hx => hb x (List.mem_reverse.mp hx)),
    dropWhile_ws_cons_of_not _ _ hd, ← hrev, List.reverse_reverse]

theorem splitSp_no_space (l : List Char) (h : ∀ c ∈ l, c ≠ ' ') :
    splitSp l = [l] := by
  induction l with
  | nil => rfl
  | cons c cs ih =>
    unfold splitSp
    rw [if_neg (h c (by simp)), ih fun x hx => h x (by simp [hx])]

theorem splitSp_sep (a b : List Char) (h : ∀ c ∈ a, c ≠ ' ') :
    splitSp (a ++ ' ' :: b) = a :: splitSp b := by
  induction a with
  | nil => simp [splitSp]
  | cons c cs ih =>
    rw [List.cons_append, splitSp, if_neg (h c (by simp)),
      ih fun x hx => h x (by simp [hx])]

/-- A line of the shape `padL ++ label ++ " " ++ v ++ padR` — whitespace
padding around a non-whitespace label, a single space, and a non-whitespace,
nonempty value — strips and splits to exactly `[label, v]`. -/
theorem pySplit_pyStrip_line (label v padL padR : String)
    (hL : ∀ c ∈ padL.data, c.isWhitespace) (hR : ∀ c ∈ padR.data, c.isWhitespace)
    (hlab : label.data ≠ []) (hlabc : ∀ c ∈ label.data, ¬ c.isWhitespace)
    (hv : v.data ≠ []) (hvc : ∀ c ∈ v.data, ¬ c.isWhitespace) :
    pySplit (pyStrip (padL ++ label ++ " " ++ v ++ padR)) = [label, v] := by
  obtain ⟨c, lab, hcl⟩ : ∃ c lab, label.data = c :: lab :=
    match label.data, hlab with
    | x :: xs, _ => ⟨x, xs, rfl⟩
  obtain ⟨d, r0, hdr⟩ : ∃ d r0, v.data.reverse = d :: r0 :=
    match hrv : v.data.reverse, hv with
    | x :: xs, _ => ⟨x, xs, rfl⟩
    | [], hv0 => absurd (by simpa using hrv) hv0
  have hdata : (padL ++ label ++ " " ++ v ++ padR).data =
      padL.data ++ (c :: (lab ++ ' ' :: v.data)) ++ padR.data := by
    simp [data_append, hcl]
  have hmidrev : (c :: (lab ++ ' ' :: v.data)).reverse =
      d :: (r0 ++ ' ' :: lab.reverse ++ [c]) := by
    rw [List.reverse_cons, List.reverse_append, List.reverse_cons,
      List.append_assoc, hdr]
    simp
  have hstrip : stripChars (padL ++ label ++ " " ++ v ++ padR).data =
      c :: (lab ++ ' ' :: v.data) := by
    rw [hdata]
    exact stripChars_sandwich _ _ c d _ _ hL hR
      (hlabc c (by simp [hcl])) (hvc d (List.mem_reverse.mp (by simp [hdr])))
      hmidrev
  have hsplit : splitSp (c :: (lab ++ ' ' :: v.data)) = [c :: lab, v.data] := by
    rw [← List.cons_append]
    rw [splitSp_sep (c :: lab) v.data
      (fun x hx => by
        have : ¬ x.isWhitespace := hlabc x (by rw [hcl]; exact hx)
        intro hsp; exact this (by simp [hsp]))]
    rw [splitSp_no_space v.data
      (fun x hx => by
        have : ¬ x.isWhitespace := hvc x hx
        intro hsp; exact this (by simp [hsp]))]
  show (splitSp (stripChars _)).map String.mk = _
  rw [hstrip, hsplit]
  show [String.mk (c :: lab), String.mk v.data] = [label, v]
  rw [← hcl]

/-- C2: for every well-formed metadata file whose first three lines are
`width <w>`, `height <h>`, `pixel_format <p>`, `parse_meta` returns exactly
the triple of strings `(w, h, p)` regardless of extra whitespace around the
tokens: each line is stripped of leading and trailing whitespace before being
split on the single space character, and the second resulting token is the
value. -/
theorem parse_meta_wellformed
    (w h p aL aR bL bR cL cR : String)
    (haL : ∀ c ∈ aL.data, c.isWhitespace) (haR : ∀ c ∈ aR.data, c.isWhitespace)
    (hbL : ∀ c ∈ bL.data, c.isWhitespace) (hbR : ∀ c ∈ bR.data, c.isWhitespace)
    (hcL : ∀ c ∈ cL.data, c.isWhitespace) (hcR : ∀ c ∈ cR.data, c.isWhitespace)
    (hw : w.data ≠ []) (hwc : ∀ c ∈ w.data, ¬ c.isWhitespace)
    (hh : h.data ≠ []) (hhc : ∀ c ∈ h.data, ¬ c.isWhitespace)
    (hp : p.data ≠ []) (hpc : ∀ c ∈ p.data, ¬ c.isWhitespace) :
    parse_meta [aL ++ "width " ++ w ++ aR,
                bL ++ "height " ++ h ++ bR,
                cL ++ "pixel_format " ++ p ++ cR] = some (w, h, p) := by
  have h0 := pySplit_pyStrip_line "width" w aL aR haL haR (by decide) (by decide) hw hwc
  have h1 := pySplit_pyStrip_line "height" h bL bR hbL hbR (by decide) (by decide) hh hhc
  have h2 := pySplit_pyStrip_line "pixel_format" p cL cR hcL hcR (by decide) (by decide) hp hpc
  have e0 : aL ++ "width" ++ " " ++ w ++ aR = aL ++ "width " ++ w ++ aR := by
    have : (aL ++ "width" ++ " " ++ w ++ aR).data = (aL ++ "width " ++ w ++ aR).data := by
      simp [data_append]
    exact String.ext this
  have e1 : bL ++ "height" ++ " " ++ h ++ bR = bL ++ "height " ++ h ++ bR := by
    have : (bL ++ "height" ++ " " ++ h ++ bR).data = (bL ++ "height " ++ h ++ bR).data := by
      simp [data_append]
    exact String.ext this
  have e2 : cL ++ "pixel_format" ++ " " ++ p ++ cR = cL ++ "pixel_format " ++ p ++ cR := by
    have : (cL ++ "pixel_format" ++ " " ++ p ++ cR).data =
        (cL ++ "pixel_format " ++ p ++ cR).data := by
      simp [data_append]
    exact String.ext this
  rw [e0] at h0; rw [e1] at h1; rw [e2] at h2
  simp [parse_meta, h0, h1, h2]

/-- Witness for C2: the padded file `["width 640 ", "  height 480",
"pixel_format NV21"]` parses to `("640", "480", "NV21")`. -/
theorem parse_meta_wellformed_witness :
    parse_meta ["width 640 ", "  height 480", "pixel_format NV21"] =
      some ("640", "480", "NV21") :=
  parse_meta_wellformed "640" "480" "NV21" "" " " "  " "" "" ""
    (by decide) (by decide) (by decide) (by decide) (by decide) (by decide)
    (by decide) (by decide) (by decide) (by decide) (by decide) (by decide)

/-! ## The claims about the full script -/

/-- C1: metadata `width 640` / `height 480` / `pixel_format NV21`, invocation
with input `input.nv21`, output `out.jpg`, no overwrite flag: the built
argument list is exactly the tool name, `-n`, `-f image2`, `-vcodec rawvideo`,
`-pix_fmt nv21`, `-s 640x480`, `-i input.nv21`, `out.jpg`, in that order. -/
theorem main_end_to_end :
    main ⟨false, "input.nv21", "meta.txt", "out.jpg"⟩
      (some ["width 640", "height 480", "pixel_format NV21"]) =
    Except.ok ["ffmpeg", "-n", "-f", "image2", "-vcodec", "rawvideo",
      "-pix_fmt", "nv21", "-s", "640x480", "-i", "input.nv21", "out.jpg"] := rfl

/-- A file with fewer than three lines fails to parse. -/
theorem parse_meta_short (rawLines : List String)
    (hlen : rawLines.length < 3) : parse_meta rawLines = none := by
  match rawLines with
  | [] => rfl
  | [a] => rfl
  | [a, b] => rfl
  | a :: b :: c :: r => simp at hlen; omega

/-- A file whose first, second or third line lacks a second space-delimited
token fails to parse. -/
theorem parse_meta_badline (a b c : String) (rest : List String)
    (h : (pySplit (pyStrip a)).get? 1 = none ∨ (pySplit (pyStrip b)).get? 1 = none ∨
      (pySplit (pyStrip c)).get? 1 = none) :
    parse_meta (a :: b :: c :: rest) = none := by
  show (match (pySplit (pyStrip a)).get? 1, (pySplit (pyStrip b)).get? 1,
      (pySplit (pyStrip c)).get? 1 with
    | some w, some hh, some p => some (w, hh, p)
    | _, _, _ => none) = none
  rcases h with h | h | h
  · rw [h]
  · cases (pySplit (pyStrip a)).get? 1 <;> rw [h]
  · cases (pySplit (pyStrip a)).get? 1 <;> cases (pySplit (pyStrip b)).get? 1 <;> rw [h]

/-- C3: `parse_meta` fails with a file-access error when the metadata file is
missing or unreadable, and with a format (index-out-of-range) error when the
file has fewer than three lines or one of the first three lines, after
stripping, lacks a space-delimited second token; whenever `parse_meta` fails,
the error propagates out of `main` and the external tool is never invoked. -/
theorem parse_meta_errors (args : Args) (mf : Option (List String)) :
    (mf = none → parse_meta_file mf = Except.error MetaError.fileAccess) ∧
    (∀ ls, mf = some ls →
      (ls.length < 3 ∨ ∃ l ∈ ls.take 3, (pySplit (pyStrip l)).get? 1 = none) →
      parse_meta_file mf = Except.error MetaError.formatError) ∧
    (∀ e, parse_meta_file mf = Except.error e →
      (∃ e', main args mf = Except.error e') ∧
        Step.invokeTool ∉ trace args mf) := by
  refine ⟨fun hnone => by rw [hnone]; rfl, ?_, ?_⟩
  · rintro ls rfl hbad
    have hpm : parse_meta ls = none := by
      rcases hbad with hlen | ⟨l, hl, hnone⟩
      · exact parse_meta_short ls hlen
      · match ls, hl with
        | [], hl => exact absurd hl (by simp)
        | [a], hl => exact parse_meta_short [a] (by simp)
        | [a, b], hl => exact parse_meta_short [a, b] (by simp)
        | a :: b :: c :: r, hl =>
          have : l = a ∨ l = b ∨ l = c := by
            simpa [List.take] using hl
          refine parse_meta_badline a b c r ?_
          rcases this with rfl | rfl | rfl
          · exact Or.inl hnone
          · exact Or.inr (Or.inl hnone)
          · exact Or.inr (Or.inr hnone)
    show (match parse_meta ls with
      | none => Except.error MetaError.formatError
      | some t => Except.ok t) = Except.error MetaError.formatError
    rw [hpm]
  · intro e he
    have hmain : ∃ e', main args mf = Except.error e' := by
      unfold main
      by_cases hext : ¬ pyEndsWith args.output ".jpg" ∧ ¬ pyEndsWith args.output ".png"
      · exact ⟨ProgError.validation, by rw [if_pos hext]⟩
      · rw [if_neg hext, he]
        cases e
        · exact ⟨ProgError.fileAccess, rfl⟩
        · exact ⟨ProgError.formatError, rfl⟩
    refine ⟨hmain, fun hmem => ?_⟩
    obtain ⟨cmd, hok⟩ := (invokeTool_mem_trace_iff args mf).mp hmem
    obtain ⟨e', he'⟩ := hmain
    rw [hok] at he'
    exact Except.noConfusion he'

/-- Witness for C3: a two-line metadata file yields the format error, the run
aborts, and the external tool is not invoked. -/
theorem parse_meta_errors_witness :
    parse_meta_file (some ["width 640", "height 480"]) =
      Except.error MetaError.formatError ∧
    (∃ e', main ⟨false, "input.nv21", "meta.txt", "out.jpg"⟩
      (some ["width 640", "height 480"]) = Except.error e') ∧
    Step.invokeTool ∉ trace ⟨false, "input.nv21", "meta.txt", "out.jpg"⟩
      (some ["width 640", "height 480"]) := by
  have h := parse_meta_errors ⟨false, "input.nv21", "meta.txt", "out.jpg"⟩
    (some ["width 640", "height 480"])
  have h1 := h.2.1 ["width 640", "height 480"] rfl (Or.inl (by decide))
  have h2 := h.2.2 MetaError.formatError h1
  exact ⟨h1, h2.1, h2.2⟩

/-- C4: an output path ending in neither `.jpg` nor `.png` (case-sensitive)
fails with the validation error and the external tool is never invoked; a
path ending in `.jpg` or `.png` passes this check. -/
theorem output_extension_check (args : Args) (mf : Option (List String)) :
    (¬ pyEndsWith args.output ".jpg" ∧ ¬ pyEndsWith args.output ".png" →
      main args mf = Except.error ProgError.validation ∧
      Step.invokeTool ∉ trace args mf) ∧
    (pyEndsWith args.output ".jpg" ∨ pyEndsWith args.output ".png" →
      main args mf ≠ Except.error ProgError.validation) := by
  constructor
  · intro hext
    have hmain : main args mf = Except.error ProgError.validation := by
      unfold main
      rw [if_pos hext]
    refine ⟨hmain, fun hmem => ?_⟩
    obtain ⟨cmd, hok⟩ := (invokeTool_mem_trace_iff args mf).mp hmem
    rw [hok] at hmain
    exact Except.noConfusion hmain
  · intro hext
    unfold main
    rw [if_neg (fun ⟨h1, h2⟩ => hext.elim h1 h2)]
    cases hpm : parse_meta_file mf with
    | error e => cases e <;> simp
    | ok t => obtain ⟨w, h, p⟩ := t; simp

/-- Witness for C4: `out.gif`, `out` and `out.JPG` are rejected before any
external invocation, `out.jpg` passes the check. -/
theorem output_extension_check_witness :
    main ⟨false, "in.nv21", "m.txt", "out.gif"⟩ none = Except.error ProgError.validation ∧
    main ⟨false, "in.nv21", "m.txt", "out"⟩ none = Except.error ProgError.validation ∧
    (main ⟨false, "in.nv21", "m.txt", "out.JPG"⟩ none = Except.error ProgError.validation ∧
      Step.invokeTool ∉ trace ⟨false, "in.nv21", "m.txt", "out.JPG"⟩ none) ∧
    main ⟨false, "in.nv21", "m.txt", "out.jpg"⟩ none ≠ Except.error ProgError.validation :=
  ⟨((output_extension_check ⟨false, "in.nv21", "m.txt", "out.gif"⟩ none).1
      (by decide)).1,
   ((output_extension_check ⟨false, "in.nv21", "m.txt", "out"⟩ none).1
      (by decide)).1,
   (output_extension_check ⟨false, "in.nv21", "m.txt", "out.JPG"⟩ none).1
      (by decide),
   (output_extension_check ⟨false, "in.nv21", "m.txt", "out.jpg"⟩ none).2
      (Or.inl (by decide))⟩

/-- The size token `w ++ "x" ++ h` always contains the character `x`, so it
never equals a string without one. -/
theorem sizeTok_ne (w h s : String) (hx : 'x' ∉ s.data) : w ++ "x" ++ h ≠ s := by
  intro heq
  apply hx
  rw [← heq]
  show 'x' ∈ (w ++ "x" ++ h).data
  rw [data_append, data_append]
  exact List.mem_append.mpr (Or.inl (List.mem_append.mpr (Or.inr (by decide))))

/-- Inversion of a successful run: the extension check passed, the metadata
parsed, and the built command is the literal `ffmpeg` argument list. -/
theorem main_ok_inv (args : Args) (mf : Option (List String)) (cmd : List String)
    (hmain : main args mf = Except.ok cmd) :
    (pyEndsWith args.output ".jpg" ∨ pyEndsWith args.output ".png") ∧
    ∃ w h p, parse_meta_file mf = Except.ok (w, h, p) ∧
      cmd = ["ffmpeg", if args.overwrite then "-y" else "-n", "-f", "image2",
        "-vcodec", "rawvideo", "-pix_fmt", pyLower p, "-s", w ++ "x" ++ h,
        "-i", args.input, args.output] := by
  unfold main at hmain
  by_cases hext : ¬ pyEndsWith args.output ".jpg" ∧ ¬ pyEndsWith args.output ".png"
  · rw [if_pos hext] at hmain
    exact Except.noConfusion hmain
  · rw [if_neg hext] at hmain
    refine ⟨by tauto, ?_⟩
    cases hpm : parse_meta_file mf with
    | error e =>
      rw [hpm] at hmain
      cases e <;> exact Except.noConfusion hmain
    | ok t =>
      obtain ⟨w, h, p⟩ := t
      rw [hpm] at hmain
      exact ⟨w, h, p, rfl, (Except.ok.inj hmain).symm⟩

/-- A successful run builds the full command for any parsed triple: no
numeric validation of width or height happens, the strings go into the size
token verbatim (C9 helper, shared with C5 and C6). -/
theorem main_ok_cmd (args : Args) (mf : Option (List String)) (w h p : String)
    (hpm : parse_meta_file mf = Except.ok (w, h, p))
    (hext : pyEndsWith args.output ".jpg" ∨ pyEndsWith args.output ".png") :
    main args mf = Except.ok
      ["ffmpeg", if args.overwrite then "-y" else "-n", "-f", "image2",
       "-vcodec", "rawvideo", "-pix_fmt", pyLower p, "-s", w ++ "x" ++ h,
       "-i", args.input, args.output] := by
  unfold main
  rw [if_neg (fun ⟨h1, h2⟩ => hext.elim h1 h2), hpm]

/-- C5 counterexample: with overwrite=false but input path literally `-y`,
the built command contains the string `-y` (as the input argument), so
"contains `-y` if and only if overwrite=true" fails as a statement about
membership in the argument list. -/
theorem overwrite_flag_counterexample :
    main ⟨false, "-y", "meta.txt", "out.jpg"⟩
      (some ["width 640", "height 480", "pixel_format NV21"]) =
      Except.ok ["ffmpeg", "-n", "-f", "image2", "-vcodec", "rawvideo",
        "-pix_fmt", "nv21", "-s", "640x480", "-i", "-y", "out.jpg"] ∧
    "-y" ∈ ["ffmpeg", "-n", "-f", "image2", "-vcodec", "rawvideo",
        "-pix_fmt", "nv21", "-s", "640x480", "-i", "-y", "out.jpg"] ∧
    (Args.mk false "-y" "meta.txt" "out.jpg").overwrite = false :=
  ⟨rfl, by decide, rfl⟩

/-- C5 (amended): the overwrite-flag position (element 1) of the built
command holds `-y` exactly when overwrite=true and `-n` exactly when
overwrite=false; and provided neither the input path nor the lower-cased
pixel format is itself the string `-y` or `-n`, the command contains `-n` iff
overwrite=false and `-y` iff overwrite=true, mutually exclusively. -/
theorem overwrite_flag_iff (args : Args) (mf : Option (List String))
    (cmd : List String) (w h p : String)
    (hpm : parse_meta_file mf = Except.ok (w, h, p))
    (hmain : main args mf = Except.ok cmd) :
    cmd.get? 1 = some (if args.overwrite then "-y" else "-n") ∧
    (args.input ≠ "-y" → args.input ≠ "-n" →
      pyLower p ≠ "-y" → pyLower p ≠ "-n" →
      (("-n" ∈ cmd ↔ args.overwrite = false) ∧
       ("-y" ∈ cmd ↔ args.overwrite = true))) := by
  obtain ⟨hext, w', h', p', hpm', hcmd⟩ := main_ok_inv args mf cmd hmain
  rw [hpm] at hpm'
  obtain ⟨hw, hh, hp⟩ : w = w' ∧ h = h' ∧ p = p' := by
    have := Except.ok.inj hpm'
    simpa [Prod.ext_iff] using this
  subst hw; subst hh; subst hp
  subst hcmd
  have hoy : args.output ≠ "-y" := by
    intro he; rw [he] at hext; revert hext; decide
  have hon : args.output ≠ "-n" := by
    intro he; rw [he] at hext; revert hext; decide
  have hsy : w ++ "x" ++ h ≠ "-y" := sizeTok_ne w h "-y" (by decide)
  have hsn : w ++ "x" ++ h ≠ "-n" := sizeTok_ne w h "-n" (by decide)
  constructor
  · cases args.overwrite <;> rfl
  · intro hiy hin hpy hpn
    cases args.overwrite
    · rw [if_neg (by decide : ¬ (false = true))]
      constructor
      · constructor
        · intro _; rfl
        · intro _
          exact List.mem_cons_of_mem _ (List.mem_cons_self _ _)
      · constructor
        · intro hmem
          exfalso
          simp only [List.mem_cons, List.not_mem_nil, or_false] at hmem
          rcases hmem with h | h | h | h | h | h | h | h | h | h | h | h | h
          all_goals first
            | exact absurd h (by decide)
            | exact hpy h.symm
            | exact hsy h.symm
            | exact hiy h.symm
            | exact hoy h.symm
        · intro hA; exact absurd hA (by decide)
    · rw [if_pos (rfl : true = true)]
      constructor
      · constructor
        · intro hmem
          exfalso
          simp only [List.mem_cons, List.not_mem_nil, or_false] at hmem
          rcases hmem with h | h | h | h | h | h | h | h | h | h | h | h | h
          all_goals first
            | exact absurd h (by decide)
            | exact hpn h.symm
            | exact hsn h.symm
            | exact hin h.symm
            | exact hon h.symm
        · intro hA; exact absurd hA (by decide)
      · constructor
        · intro _; rfl
        · intro _
          exact List.mem_cons_of_mem _ (List.mem_cons_self _ _)

/-- Witness for the amended C5 at a concrete run with overwrite=false. -/
theorem overwrite_flag_iff_witness :
    (["ffmpeg", "-n", "-f", "image2", "-vcodec", "rawvideo", "-pix_fmt",
      "nv21", "-s", "640x480", "-i", "input.nv21", "out.jpg"] : List String).get? 1 =
      some (if (Args.mk false "input.nv21" "meta.txt" "out.jpg").overwrite
        then "-y" else "-n") ∧
    (("-n" ∈ (["ffmpeg", "-n", "-f", "image2", "-vcodec", "rawvideo", "-pix_fmt",
        "nv21", "-s", "640x480", "-i", "input.nv21", "out.jpg"] : List String) ↔
      (Args.mk false "input.nv21" "meta.txt" "out.jpg").overwrite = false) ∧
     ("-y" ∈ (["ffmpeg", "-n", "-f", "image2", "-vcodec", "rawvideo", "-pix_fmt",
        "nv21", "-s", "640x480", "-i", "input.nv21", "out.jpg"] : List String) ↔
      (Args.mk false "input.nv21" "meta.txt" "out.jpg").overwrite = true)) := by
  have h := overwrite_flag_iff (Args.mk false "input.nv21" "meta.txt" "out.jpg")
    (some ["width 640", "height 480", "pixel_format NV21"])
    ["ffmpeg", "-n", "-f", "image2", "-vcodec", "rawvideo", "-pix_fmt",
      "nv21", "-s", "640x480", "-i", "input.nv21", "out.jpg"]
    "640" "480" "NV21" rfl rfl
  have hlow : pyLower "NV21" = "nv21" := rfl
  exact ⟨h.1, h.2 (by decide) (by decide) (by rw [hlow]; decide) (by rw [hlow]; decide)⟩

/-- C6: the pixel-format token placed in the built command (element 7) is the
metadata value lower-cased, and the frame-size token (element 9) is exactly
the width string, the character `x`, and the height string, with nothing
else. -/
theorem pixel_and_size_tokens (args : Args) (mf : Option (List String))
    (w h p : String) (cmd : List String)
    (hpm : parse_meta_file mf = Except.ok (w, h, p))
    (hmain : main args mf = Except.ok cmd) :
    cmd.get? 7 = some (pyLower p) ∧ cmd.get? 9 = some (w ++ "x" ++ h) := by
  obtain ⟨hext, w', h', p', hpm', hcmd⟩ := main_ok_inv args mf cmd hmain
  rw [hpm] at hpm'
  obtain ⟨hw, hh, hp⟩ : w = w' ∧ h = h' ∧ p = p' := by
    have := Except.ok.inj hpm'
    simpa [Prod.ext_iff] using this
  subst hw; subst hh; subst hp
  rw [hcmd]
  exact ⟨rfl, rfl⟩

/-- Witness for C6 at the concrete end-to-end run: `NV21` is lowered to
`nv21` and the size token is `640x480`. -/
theorem pixel_and_size_tokens_witness :
    ((["ffmpeg", "-n", "-f", "image2", "-vcodec", "rawvideo", "-pix_fmt",
      "nv21", "-s", "640x480", "-i", "input.nv21", "out.jpg"] : List String).get? 7 =
      some (pyLower "NV21")) ∧
    ((["ffmpeg", "-n", "-f", "image2", "-vcodec", "rawvideo", "-pix_fmt",
      "nv21", "-s", "640x480", "-i", "input.nv21", "out.jpg"] : List String).get? 9 =
      some ("640" ++ "x" ++ "480")) :=
  pixel_and_size_tokens (Args.mk false "input.nv21" "meta.txt" "out.jpg")
    (some ["width 640", "height 480", "pixel_format NV21"])
    "640" "480" "NV21"
    ["ffmpeg", "-n", "-f", "image2", "-vcodec", "rawvideo", "-pix_fmt",
      "nv21", "-s", "640x480", "-i", "input.nv21", "out.jpg"] rfl rfl

/-- C7 counterexample: with a missing metadata file AND an invalid output
extension, the run fails with the validation error, not the file-access
error, and the metadata-parsing step never appears in the trace: the
extension check comes first in the code. -/
theorem sequence_counterexample :
    main ⟨false, "in.nv21", "meta.txt", "out.gif"⟩ none =
      Except.error ProgError.validation ∧
    ProgError.validation ≠ ProgError.fileAccess ∧
    trace ⟨false, "in.nv21", "meta.txt", "out.gif"⟩ none =
      [Step.parseArgs, Step.validateExt] ∧
    Step.parseMeta ∉ trace ⟨false, "in.nv21", "meta.txt", "out.gif"⟩ none :=
  ⟨rfl, by decide, rfl, by decide⟩

/-- C7 (amended): the steps occur in the fixed order parse args → validate
extension → parse metadata → build command → invoke tool → exit; every trace
is a prefix of that sequence, begins with argument parsing followed by
extension validation, a successful run performs all six steps, and when both
the metadata file is missing and the output extension is invalid, the
extension-validation failure occurs first. -/
theorem sequence_order (args : Args) (mf : Option (List String)) :
    (∃ n, trace args mf = fullTrace.take n) ∧
    (∃ rest, trace args mf = Step.parseArgs :: Step.validateExt :: rest) ∧
    (∀ cmd, main args mf = Except.ok cmd → trace args mf = fullTrace) ∧
    (¬ pyEndsWith args.output ".jpg" ∧ ¬ pyEndsWith args.output ".png" →
      mf = none → main args mf = Except.error ProgError.validation) := by
  refine ⟨?_, ?_, ?_, ?_⟩
  · unfold trace
    by_cases hext : ¬ pyEndsWith args.output ".jpg" ∧ ¬ pyEndsWith args.output ".png"
    · exact ⟨2, by rw [if_pos hext]; rfl⟩
    · rw [if_neg hext]
      cases hpm : parse_meta_file mf with
      | error e => exact ⟨3, rfl⟩
      | ok t => exact ⟨6, rfl⟩
  · unfold trace
    exact ⟨_, rfl⟩
  · intro cmd hok
    unfold trace
    unfold main at hok
    by_cases hext : ¬ pyEndsWith args.output ".jpg" ∧ ¬ pyEndsWith args.output ".png"
    · rw [if_pos hext] at hok
      exact Except.noConfusion hok
    · rw [if_neg hext] at hok
      rw [if_neg hext]
      cases hpm : parse_meta_file mf with
      | error e => rw [hpm] at hok; cases e <;> exact Except.noConfusion hok
      | ok t => rfl
  · intro hext hnone
    unfold main
    rw [if_pos hext]

/-- Witness for the amended C7: the successful end-to-end run performs all
six steps in order, and the doubly-failing run stops at validation. -/
theorem sequence_order_witness :
    trace ⟨false, "input.nv21", "meta.txt", "out.jpg"⟩
      (some ["width 640", "height 480", "pixel_format NV21"]) = fullTrace ∧
    main ⟨false, "in.nv21", "meta.txt", "out.gif"⟩ none =
      Except.error ProgError.validation :=
  ⟨(sequence_order ⟨false, "input.nv21", "meta.txt", "out.jpg"⟩
      (some ["width 640", "height 480", "pixel_format NV21"])).2.2.1
      ["ffmpeg", "-n", "-f", "image2", "-vcodec", "rawvideo", "-pix_fmt",
        "nv21", "-s", "640x480", "-i", "input.nv21", "out.jpg"] rfl,
   (sequence_order ⟨false, "in.nv21", "meta.txt", "out.gif"⟩ none).2.2.2
      (by decide) rfl⟩

/-- C8: the script makes exactly one external invocation per successful run
and ignores the tool's exit status entirely: the run's outcome is identical
for any two exit-status functions, and a successful run ends in the same
success (no recorded error) whatever status the tool returns. -/
theorem tool_exit_ignored (args : Args) (mf : Option (List String))
    (t₁ t₂ : List String → Int) :
    runProgram args mf t₁ = runProgram args mf t₂ ∧
    (∀ cmd, main args mf = Except.ok cmd →
      ∀ t : List String → Int, runProgram args mf t = ([cmd], none)) := by
  constructor
  · unfold runProgram
    cases main args mf <;> rfl
  · intro cmd hok t
    unfold runProgram
    rw [hok]

/-- Witness for C8: the concrete end-to-end run invokes the tool once and
reports no error, whether the tool exits 0 or 1. -/
theorem tool_exit_ignored_witness :
    runProgram ⟨false, "input.nv21", "meta.txt", "out.jpg"⟩
      (some ["width 640", "height 480", "pixel_format NV21"]) (fun _ => 1) =
      ([["ffmpeg", "-n", "-f", "image2", "-vcodec", "rawvideo", "-pix_fmt",
        "nv21", "-s", "640x480", "-i", "input.nv21", "out.jpg"]], none) ∧
    runProgram ⟨false, "input.nv21", "meta.txt", "out.jpg"⟩
      (some ["width 640", "height 480", "pixel_format NV21"]) (fun _ => 0) =
      runProgram ⟨false, "input.nv21", "meta.txt", "out.jpg"⟩
        (some ["width 640", "height 480", "pixel_format NV21"]) (fun _ => 1) :=
  ⟨(tool_exit_ignored ⟨false, "input.nv21", "meta.txt", "out.jpg"⟩
      (some ["width 640", "height 480", "pixel_format NV21"])
      (fun _ => 0) (fun _ => 1)).2
      ["ffmpeg", "-n", "-f", "image2", "-vcodec", "rawvideo", "-pix_fmt",
        "nv21", "-s", "640x480", "-i", "input.nv21", "out.jpg"] rfl (fun _ => 1),
   (tool_exit_ignored ⟨false, "input.nv21", "meta.txt", "out.jpg"⟩
      (some ["width 640", "height 480", "pixel_format NV21"])
      (fun _ => 0) (fun _ => 1)).1⟩

/-- C9: whatever strings the metadata parser produced for width and height —
non-numeric or non-positive included — command building succeeds with no
validation of them, embedding the strings verbatim in the size token. -/
theorem no_numeric_validation (args : Args) (mf : Option (List String))
    (w h p : String)
    (hpm : parse_meta_file mf = Except.ok (w, h, p))
    (hext : pyEndsWith args.output ".jpg" ∨ pyEndsWith args.output ".png") :
    main args mf = Except.ok
      ["ffmpeg", if args.overwrite then "-y" else "-n", "-f", "image2",
       "-vcodec", "rawvideo", "-pix_fmt", pyLower p, "-s", w ++ "x" ++ h,
       "-i", args.input, args.output] :=
  main_ok_cmd args mf w h p hpm hext

/-- Witness for C9: a non-numeric width `abc` and a negative height `-5`
still produce a command, with `abcx-5` as the size token. -/
theorem no_numeric_validation_witness :
    main ⟨false, "in.nv21", "meta.txt", "out.jpg"⟩
      (some ["width abc", "height -5", "pixel_format nv21"]) = Except.ok
      ["ffmpeg", if (false : Bool) then "-y" else "-n", "-f", "image2",
       "-vcodec", "rawvideo", "-pix_fmt", pyLower "nv21", "-s",
       "abc" ++ "x" ++ "-5", "-i", "in.nv21", "out.jpg"] :=
  no_numeric_validation ⟨false, "in.nv21", "meta.txt", "out.jpg"⟩
    (some ["width abc", "height -5", "pixel_format nv21"])
    "abc" "-5" "nv21" rfl (Or.inl (by decide))

/-- C10: `parse_meta` depends only on the first three lines: appending any
further lines leaves the result unchanged, and in particular a well-formed
three-line head still parses to the same triple with any trailing lines. -/
theorem parse_meta_ignores_extra_lines (l0 l1 l2 : String) (rest : List String) :
    parse_meta (l0 :: l1 :: l2 :: rest) = parse_meta [l0, l1, l2] ∧
    (∀ t, parse_meta [l0, l1, l2] = some t →
      parse_meta (l0 :: l1 :: l2 :: rest) = some t) := by
  refine ⟨rfl, fun t ht => ?_⟩
  rw [← ht]; rfl

/-- Witness for C10: a junk fourth line does not change the parsed triple. -/
theorem parse_meta_ignores_extra_lines_witness :
    parse_meta ["width 640", "height 480", "pixel_format NV21",
      "junk line without meaning"] = some ("640", "480", "NV21") :=
  (parse_meta_ignores_extra_lines "width 640" "height 480" "pixel_format NV21"
    ["junk line without meaning"]).2 ("640", "480", "NV21") rfl

end Yuv2Rgb
